import Mathlib

/-!
Verification of the xPDFSearch extraction engine against its specification.

This file shallowly embeds the state-manipulating core of the repository:
the `Request` cursor protocol (`ThreadData::setRequestPtr`,
`ThreadData::initRequest`), the guarded status transitions
(`ThreadData::setStatusCond` and its call sites), the request set-up and
result post-processing of `PDFExtractor::initData` / `PDFExtractor::extract`,
the two-file comparison loop of `PDFExtractor::compare`, the delimiter
filter `PDFExtractor::removeDelimiters`, the date parsing prefix of
`PDFExtractor::PdfDateTimeToFileTime`, and the text converter
`PdfTxtToUTF16`.

Machine integers are modelled as `Int`/`Nat`; pointers into the request
buffer are modelled as offsets from the buffer start.  Cross-thread
interleavings are not modelled: each embedded function captures the effect
the corresponding C++ function has on the request state from the calling
thread (event signalling and waiting are elided, and the outcome of a wait
is an explicit input where a function branches on it).
-/

namespace XPDFSearch

/-! ### Constants from src/common/contentplug.h and src/xPDFInfo.hh -/

def ft_numeric_32 : Int := 1
def ft_numeric_floating : Int := 3
def ft_boolean : Int := 6
def ft_datetime : Int := 10
def ft_stringw : Int := 11
def ft_fulltextw : Int := 12
def ft_compare_eq_txt : Int := 2
def ft_compare_eq : Int := 1
def ft_compare_not_eq : Int := 0
def ft_compare_err : Int := -1
def ft_compare_abort : Int := -2
def ft_compare_next : Int := -3
def ft_delayed : Int := 0
def ft_nosuchfield : Int := -1
def ft_fileerror : Int := -2
def ft_fieldempty : Int := -3
def ft_setsuccess : Int := 0
def ft_timeout : Int := 1

/-- Field indices from the `fieldIndexes` enumeration in src/xPDFInfo.hh.
Only the two streaming fields are needed by name. -/
def fiOutlines : Int := 36
def fiText : Int := 37

/-- `REQUEST_BUFFER_SIZE` from src/ThreadData.hh. -/
def REQUEST_BUFFER_SIZE : Nat := 2048

/-! ### Request status (src/ThreadData.hh, enum requestStatus) -/

inductive requestStatus where
  | closed
  | active
  | complete
  | cancelled
deriving DecidableEq, Repr, Fintype

/-! ### Cursor updates: ThreadData::setRequestPtr (src/ThreadData.hh:135-139)

The C++ code stores `ptr` as a raw pointer into `buffer`; here it is the
signed offset `ptr - buffer`.  `hasBuffer` is `request.buffer != nullptr`
(false after `Request::release`).  The guard accepts the new position only
when `buffer && ptr >= buffer && ptr < buffer + REQUEST_BUFFER_SIZE`. -/

def setRequestPtr (hasBuffer : Bool) (ptr pos : Int) : Int :=
  if hasBuffer ∧ 0 ≤ pos ∧ pos < (REQUEST_BUFFER_SIZE : Int) then pos else ptr

/-! ### Request initialization: ThreadData::initRequest (src/ThreadData.cc:376-402)

Models the effect on the cursor offset `ptr`, the result tag
`request.result` and the returned value.  The `memset` that clears the
first bytes of the buffer is elided (buffer contents are not part of this
state).  Returns `(new ptr, new request.result, return value)`. -/

def initRequest (ptr : Int) (field unit : Int) : Int × Int × Int :=
  let ptr1 := if (field = fiText ∨ field = fiOutlines) ∧ 0 < unit then ptr else 0
  if ptr1 = 0 then (0, ft_fieldempty, ft_setsuccess)
  else (ptr1, ft_fulltextw, ft_timeout)

/-! ### Status transitions

`setStatusCond` (src/ThreadData.hh:112-117) is a compare-and-swap: the
status becomes `nw` only when it currently equals `old`.  The functions
below are the per-operation effects on `request.status` of every place in
the repository that writes the status. -/

def setStatusCond (nw old s : requestStatus) : requestStatus :=
  if s = old then nw else s

/-- `ThreadData::stop` (src/ThreadData.cc:306): CAS active→cancelled. -/
def stopStatus (s : requestStatus) : requestStatus :=
  setStatusCond .cancelled .active s

/-- `ThreadData::done` (src/ThreadData.cc:322): CAS active→complete. -/
def doneStatus (s : requestStatus) : requestStatus :=
  setStatusCond .complete .active s

/-- Worker loop after `doWork` (src/PDFExtractor.cc:853): CAS active→complete. -/
def workerCompleteStatus (s : requestStatus) : requestStatus :=
  setStatusCond .complete .active s

/-- Worker loop after `doWork` (src/PDFExtractor.cc:855): CAS cancelled→closed. -/
def workerClosedStatus (s : requestStatus) : requestStatus :=
  setStatusCond .closed .cancelled s

/-- `PDFExtractor::extract` re-arming (src/PDFExtractor.cc:1017,1073) and
`PDFExtractor::compare` (src/PDFExtractor.cc:1209-1210): CAS complete→active. -/
def extractArmStatus (s : requestStatus) : requestStatus :=
  setStatusCond .active .complete s

/-- `PDFExtractor::waitForConsumer` failure path (src/PDFExtractor.cc:945)
and `ThreadData::output` producer-timeout path (src/ThreadData.cc:437):
CAS active→cancelled. -/
def consumerFailStatus (s : requestStatus) : requestStatus :=
  setStatusCond .cancelled .active s

/-- `PDFExtractor::closeDoc` (src/PDFExtractor.cc:99-103): unconditional
`setStatus(closed)`.  Reached from `close()` on the worker idle-timeout
path (src/PDFExtractor.cc:876), on a file-name change in `open()`
(src/PDFExtractor.cc:152,160) and on worker exit — not only on teardown. -/
def closeDocStatus (_ : requestStatus) : requestStatus := .closed

/-- `PDFExtractor::open` new-file path (src/PDFExtractor.cc:163):
unconditional `setStatus(active)`. -/
def openNewFileStatus (_ : requestStatus) : requestStatus := .active

/-- `ThreadData::abort` (src/ThreadData.cc:342): unconditional
`setStatus(cancelled)` on the teardown path. -/
def abortStatus (_ : requestStatus) : requestStatus := .cancelled

/-- A status write is guarded (compare-and-swap style) when it is
pointwise equal to `setStatusCond nw old` for some pair of states. -/
def isGuarded (f : requestStatus → requestStatus) : Prop :=
  ∃ old nw, ∀ s, f s = setStatusCond nw old s

instance (f : requestStatus → requestStatus) : Decidable (isGuarded f) := by
  unfold isGuarded
  infer_instance

/-! ### Request set-up: PDFExtractor::initData (src/PDFExtractor.cc:964-992)

Effect of one `initData` call on the request, as seen from the consumer
thread.  `status` and `ptr` are the request status and cursor offset on
entry, `reqResult` the current `request.result` tag.  The handshake inside
`stop()` and the `waitForConsumer` on a cancelled request only signal or
wait (any concurrent worker transition is outside this call), so their
status effect here is the CAS performed by `stop()`.
`initCalled` records whether `ThreadData::initRequest` ran. -/

structure InitDataRes where
  retval : Int
  status : requestStatus
  ptr : Int
  result : Int
  initCalled : Bool
deriving DecidableEq, Repr

def initData (status : requestStatus) (ptr : Int) (reqResult : Int)
    (field unit : Int) : InitDataRes :=
  let strm := field = fiText ∨ field = fiOutlines
  let status1 := if strm ∧ unit ≤ 0 then stopStatus status else status
  if strm ∧ unit ≤ 0 ∧ unit = -1 then
    ⟨ft_fieldempty, status1, ptr, reqResult, false⟩
  else if ¬ (status1 = .cancelled
      ∨ (status1 = .closed ∧ 0 < unit ∧ strm)
      ∨ (status1 = .complete ∧ 0 < unit ∧ strm)) then
    let r := initRequest ptr field unit
    ⟨r.2.2, status1, r.1, r.2.1, true⟩
  else
    ⟨ft_fieldempty, status1, ptr, reqResult, false⟩

/-! ### Consumer wait and extract result flow (src/PDFExtractor.cc:931-1125) -/

/-- Outcome of `ThreadData::notifyProducerWaitForConsumer`:
WAIT_OBJECT_0, WAIT_TIMEOUT, or failure. -/
inductive WaitOutcome where
  | signaled
  | timedOut
  | failed
deriving DecidableEq, Repr

/-- `PDFExtractor::waitForConsumer` (src/PDFExtractor.cc:931-950) maps the
wait outcome to a result code. -/
def waitForConsumerRes (w : WaitOutcome) : Int :=
  match w with
  | .signaled => ft_setsuccess
  | .timedOut => ft_timeout
  | .failed => ft_fileerror

/-- Result and arming behaviour of `PDFExtractor::extract`
(src/PDFExtractor.cc:1007-1125).  Inputs beyond the request state:
`hasDst` — the caller supplied a destination buffer; `startOk` —
`startWorkerThread()` returned a nonzero thread id; `w` — outcome of the
consumer wait (used only on paths that wait); `collected` — the
`request.result` tag read under lock on the non-streaming success path.
Returns `(result, armed)` where `armed` records whether the call reached
`startWorkerThread` (the paths that can start/wake new extraction work).
The copy-out of buffer data into `dst` is elided; only the returned
result code is modelled. -/
def extractModel (field unit : Int) (hasDst : Bool) (status : requestStatus)
    (ptr : Int) (reqResult : Int) (startOk : Bool) (w : WaitOutcome)
    (collected : Int) : Int × Bool :=
  let d := initData status ptr reqResult field unit
  if d.retval = ft_fieldempty then (ft_fieldempty, false)
  else
    let strm := field = fiText ∨ field = fiOutlines
    if strm then
      if unit = 0 then
        let r := if startOk then waitForConsumerRes w else d.retval
        if hasDst then
          if r = ft_timeout ∨ r = ft_setsuccess then (ft_fulltextw, true)
          else (r, true)
        else (ft_nosuchfield, true)
      else
        let r := if d.retval = ft_setsuccess then waitForConsumerRes w else d.retval
        if hasDst then
          if r = ft_timeout ∨ r = ft_setsuccess then (ft_fulltextw, false)
          else (r, false)
        else (ft_nosuchfield, false)
    else
      let r := if startOk then waitForConsumerRes w else d.retval
      if r = ft_timeout then (ft_fieldempty, true)
      else if r = ft_setsuccess ∧ hasDst then (collected, true)
      else (r, true)

/-! ### Delimiter removal: PDFExtractor::removeDelimiters (src/PDFExtractor.cc:192-218)

The buffer is a list of wide-character codes; `cch` is the character count
passed by the caller.  The C loop tests `wcschr(delims, str[n])`, and
`wcschr` also matches the terminating NUL of `delims`, so a NUL character
in `str` is removed exactly like a listed delimiter. -/

def wcschrHit (delims : List Nat) (c : Nat) : Bool :=
  c = 0 || delims.contains c

/-- Kept characters: the first `cch` characters that `wcschr` does not
match. -/
def keptChars (str : List Nat) (cch : Nat) (delims : List Nat) : List Nat :=
  (str.take cch).filter (fun c => ! wcschrHit delims c)

/-- In-place effect of `removeDelimiters`: the kept characters are
compacted to the front; when anything was removed, a NUL is stored right
after them and the characters beyond the write position keep their old
values.  Returns the rewritten buffer and the new length `i`. -/
def removeDelimiters (str : List Nat) (cch : Nat) (delims : List Nat) :
    List Nat × Nat :=
  let kept := keptChars str cch delims
  let i := kept.length
  if i = cch then (str, i)
  else (kept ++ 0 :: str.drop (i + 1), i)

/-- The claim's reading of `removeDelimiters`: drop exactly the characters
that appear in `delims` (and nothing else) from the first `cch`
characters. -/
def removeDelimitersClaimed (str : List Nat) (cch : Nat) (delims : List Nat) :
    List Nat :=
  (str.take cch).filter (fun c => ! delims.contains c)

/-! ### Two-file comparison: PDFExtractor::compare (src/PDFExtractor.cc:1180-1366)

The loop is driven by a script of rounds.  Each `RoundIn` carries what the
two producer threads delivered for that round: `ok` — both sides passed
the `isActive`/handles preconditions of `compareWaitForConsumers`;
`ready` — `WaitForMultipleObjects` returned WAIT_OBJECT_0 before the
timeout; `r1`,`r2` — the two `request.result` tags read under lock;
`buf1`,`buf2` — the two NUL-terminated buffer strings read via
`StringCchLengthW` (producer-written, so they are per-round inputs here;
the `wmemmove`/`setRequestPtr` carry-over of unmatched tails is reflected
in what the next round's strings contain); `progressFires` — the progress
callback is non-null and more than PRODUCER_TIMEOUT elapsed;
`abortReq` — that callback requested an abort; `active1`,`active2` — the
statuses observed by the `while` condition.  The locale collation
`_wcsnicoll_l` is an external library call, abstracted as `coll a b n` =
"equal over the first `n` characters". -/

/-- Delimiter set `delims` of `PDFExtractor::compare`
(src/PDFExtractor.cc:1182). -/
def compareDelims : List Nat :=
  [32, 13, 10, 8, 12, 9, 11, 160, 8239, 8199, 8201, 8288]

/-- The string produced by `removeDelimiters(buf, len, delims)` inside the
compare loop (full length, compare delimiter set). -/
def stripCmp (l : List Nat) : List Nat :=
  l.filter (fun c => ! wcschrHit compareDelims c)

/-- `ThreadData::compareWaitForConsumers` (src/ThreadData.cc:235-277):
result tags equal → that tag, differing tags → `ft_compare_not_eq`;
wait timeout/failure → `ft_compare_abort`; preconditions not met →
`ft_fileerror`. -/
def compareWaitForConsumers (ok ready : Bool) (r1 r2 : Int) : Int :=
  if ok then
    if ready then (if r1 = r2 then r1 else ft_compare_not_eq)
    else ft_compare_abort
  else ft_fileerror

/-- Comparison block of one round (src/PDFExtractor.cc:1230-1315), entered
when `compareWaitForConsumers` returned a positive tag.  Returns
`(result, eqTxt, bytesProcessed, brk)` where `brk` is the `break` on the
text-not-equal path.  The buffer rewriting of the discard block only
affects what later rounds read, which the script supplies, so only its
`result = ft_compare_not_eq` reset is modelled here. -/
def roundCore (coll : List Nat → List Nat → Nat → Bool) (eqTxt0 : Bool)
    (bp0 : Nat) (buf1 buf2 : List Nat) : Int × Bool × Nat × Bool :=
  let len1 := buf1.length
  let len2 := buf2.length
  let minLen := min len1 len2
  let discard : Int → Int := fun res =>
    if res = ft_compare_eq ∧ minLen ≠ 0 ∧ (minLen < len1 ∨ minLen < len2)
    then ft_compare_not_eq else res
  if minLen ≠ 0 then
    if buf1.take minLen = buf2.take minLen then
      (discard ft_compare_eq, eqTxt0, bp0 + minLen, false)
    else
      let b1 := stripCmp buf1
      let b2 := stripCmp buf2
      let minLenX := min b1.length b2.length
      if minLenX ≠ 0 then
        if coll b1 b2 minLenX then
          (discard ft_compare_eq, true, bp0 + minLenX, false)
        else
          (ft_compare_not_eq, eqTxt0, bp0, true)
      else if b1.length = b2.length then
        (discard ft_compare_eq, true, bp0, false)
      else
        (discard ft_compare_not_eq, eqTxt0, bp0, false)
  else if len1 = len2 then
    (ft_compare_eq, eqTxt0, 0, false)
  else
    (discard ft_compare_not_eq, eqTxt0, bp0, false)

/-- Comparison loop state: the `result`, `eqTxt` and `bytesProcessed`
locals of `PDFExtractor::compare`. -/
structure CmpState where
  result : Int
  eqTxt : Bool
  bytesProcessed : Nat
deriving DecidableEq, Repr

/-- Inputs one round of the compare loop receives from the producers and
the host (see the section comment). -/
structure RoundIn where
  ok : Bool
  ready : Bool
  r1 : Int
  r2 : Int
  buf1 : List Nat
  buf2 : List Nat
  progressFires : Bool
  abortReq : Bool
  active1 : Bool
  active2 : Bool
deriving DecidableEq, Repr

/-- One iteration of the do-while loop in `PDFExtractor::compare`
(src/PDFExtractor.cc:1218-1350).  Returns the new state and whether the
loop continues. -/
def compareRound (coll : List Nat → List Nat → Nat → Bool) (st : CmpState)
    (rin : RoundIn) : CmpState × Bool :=
  let res := compareWaitForConsumers rin.ok rin.ready rin.r1 rin.r2
  if 0 < res then
    let rc := roundCore coll st.eqTxt st.bytesProcessed rin.buf1 rin.buf2
    let st1 : CmpState := ⟨rc.1, rc.2.1, rc.2.2.1⟩
    if rc.2.2.2 then (st1, false)
    else if rin.progressFires then
      if rin.abortReq then ({ st1 with result := ft_compare_abort }, false)
      else ({ st1 with bytesProcessed := 0 }, rin.active1 ∧ rin.active2)
    else (st1, rin.active1 ∧ rin.active2)
  else if res = ft_fieldempty then ({ st with result := ft_compare_eq }, false)
  else ({ st with result := res }, false)

/-- The do-while loop: run rounds until a `break` or the while condition
stops (an exhausted script stands for the statuses leaving `active`). -/
def compareLoop (coll : List Nat → List Nat → Nat → Bool) :
    CmpState → List RoundIn → CmpState
  | st, [] => st
  | st, r :: rest =>
    let s := compareRound coll st r
    if s.2 then compareLoop coll s.1 rest else s.1

/-- State at loop entry (result holds `ft_setsuccess` from `initData`). -/
def compareInit : CmpState := ⟨ft_setsuccess, false, 0⟩

/-- The compare loop followed by the final downgrade check
(src/PDFExtractor.cc:1352-1356). -/
def compareFinal (coll : List Nat → List Nat → Nat → Bool)
    (script : List RoundIn) : CmpState :=
  let st := compareLoop coll compareInit script
  if st.result = ft_compare_eq ∧ st.eqTxt then
    { st with result := ft_compare_eq_txt }
  else st

/-- A round in which the buffers matched only after delimiter stripping
and collation (or both stripped to the same length) rather than
byte-for-byte: exactly the rounds that set `eqTxt`. -/
def textMatched (coll : List Nat → List Nat → Nat → Bool)
    (rin : RoundIn) : Bool :=
  let res := compareWaitForConsumers rin.ok rin.ready rin.r1 rin.r2
  let minLen := min rin.buf1.length rin.buf2.length
  let b1 := stripCmp rin.buf1
  let b2 := stripCmp rin.buf2
  let minLenX := min b1.length b2.length
  decide (0 < res) && decide (minLen ≠ 0)
    && decide (rin.buf1.take minLen ≠ rin.buf2.take minLen)
    && (if minLenX ≠ 0 then coll b1 b2 minLenX
        else decide (b1.length = b2.length))

/-! ### Timestamp parsing: PDFExtractor::PdfDateTimeToFileTime
(src/PDFExtractor.cc:387-460)

Characters are modelled by their codes (`68 = D`, `58 = :`).  `dateToInt`
mirrors `std::from_chars` into a `uint16_t`: success requires exactly
`len` digit characters and a value that fits.  `pdfParsedYear` models the
year-determination prefix of `PdfDateTimeToFileTime`: it returns the
`wYear` value after the Y2K block (`some 0` is the code's "mark error"
path; `none` means the year never parsed and the conversion fails). -/

def isDigitCh (c : Nat) : Bool := 48 ≤ c && c ≤ 57

def digitsVal (l : List Nat) : Nat :=
  l.foldl (fun a c => a * 10 + (c - 48)) 0

def dateToInt (s : List Nat) (len : Nat) : Option Nat :=
  let t := s.take len
  if t.length = len ∧ t.all isDigitCh ∧ digitsVal t ≤ 65535 then
    some (digitsVal t)
  else none

/-- The `D:` prefix strip (src/PDFExtractor.cc:422-426). -/
def y2kStrip (s : List Nat) : List Nat :=
  if s.take 2 = [68, 58] then s.drop 2 else s

def pdfParsedYear (s : List Nat) : Option Nat :=
  if 4 ≤ s.length then
    let s1 := y2kStrip s
    if 4 ≤ s1.length then
      match dateToInt s1 4 with
      | some y =>
        if 1909 ≤ y ∧ y ≤ 1913 ∧ 14 < s1.length then
          match dateToInt (s1.drop 2) 3 with
          | some yyy => some (yyy + 1900)
          | none => some 0
        else some y
      | none => none
    else none
  else none

/-! ### Text conversion: PdfTxtToUTF16 (src/ThreadData.cc:21-38)

`src` is the list of input bytes (values < 256 at the call sites; the
embedding masks with `% 256` exactly where the C code masks).  The
destination is modelled by the trace of 16-bit stores the function
performs: `(index, value)` pairs in program order, index in wide
characters from `dst`.  A store of a NUL/backspace/form-feed unit happens
(the C code stores before filtering) but the write position does not
advance, so the next store overwrites it.  `cb` is the running `*cbDst`
byte budget.  When `cchSrc` is odd the C loop reads one byte past the
declared length on its last iteration; that phantom low byte is modelled
as 0. -/

/-- Byte swap of one 16-bit unit:
`(lo & 0xFF) | ((hi << 8) & 0xFF00)` (src/ThreadData.cc:27). -/
def swap16 (hi lo : Nat) : Nat := lo % 256 + hi % 256 * 256

/-- The filtered-out units: NUL, `\b` (8), `\f` (12)
(src/ThreadData.cc:29). -/
def isDroppedW (w : Nat) : Bool := w = 0 || w = 8 || w = 12

structure TxtGoRes where
  writes : List (Nat × Nat)
  k : Nat
  i : Nat
  cb : Int
deriving DecidableEq, Repr

/-- The conversion loop of `PdfTxtToUTF16`: `k` is the number of accepted
(kept) characters so far — the current store index — and `i` the byte
count consumed from `src`. -/
def txtGo : List Nat → Int → Nat → TxtGoRes
  | hi :: lo :: rest, cb, k =>
    if 3 < cb then
      let w := swap16 hi lo
      if isDroppedW w then
        let r := txtGo rest cb k
        ⟨(k, w) :: r.writes, r.k, r.i + 2, r.cb⟩
      else
        let r := txtGo rest (cb - 2) (k + 1)
        ⟨(k, w) :: r.writes, r.k, r.i + 2, r.cb⟩
    else ⟨[], k, 0, cb⟩
  | [hi], cb, k =>
    if 3 < cb then
      let w := swap16 hi 0
      if isDroppedW w then ⟨[(k, w)], k, 2, cb⟩
      else ⟨[(k, w)], k + 1, 2, cb - 2⟩
    else ⟨[], k, 0, cb⟩
  | [], cb, k => ⟨[], k, 0, cb⟩

/-- `PdfTxtToUTF16` itself: run the loop from index 0, then store the
terminating NUL at the end of the accepted string
(src/ThreadData.cc:35). -/
def pdfTxtToUTF16 (src : List Nat) (cbDst : Int) : TxtGoRes :=
  let r := txtGo src cbDst 0
  ⟨r.writes ++ [(r.k, 0)], r.k, r.i, r.cb⟩

/-- Replay a store trace over a destination memory `g`
(wide-character-indexed). -/
def applyWrites (ws : List (Nat × Nat)) (g : Nat → Nat) : Nat → Nat :=
  ws.foldl (fun h p j => if j = p.1 then p.2 else h j) g

/-- The 16-bit units of a byte string, byte-swapped (odd tail gets a
phantom 0 low byte, matching `txtGo`). -/
def swapUnits : List Nat → List Nat
  | hi :: lo :: rest => swap16 hi lo :: swapUnits rest
  | [hi] => [swap16 hi 0]
  | [] => []

/-- The byte-swapped units with NUL, `\b` and `\f` dropped. -/
def keptUnits (src : List Nat) : List Nat :=
  (swapUnits src).filter (fun w => ! isDroppedW w)

/-! ## Theorems -/

/-! ### C1: cursor bound invariant of setRequestPtr -/

lemma setRequestPtr_step (b : Bool) (ptr pos : Int)
    (h : 0 ≤ ptr ∧ ptr ≤ (REQUEST_BUFFER_SIZE : Int)) :
    0 ≤ setRequestPtr b ptr pos ∧
      setRequestPtr b ptr pos ≤ (REQUEST_BUFFER_SIZE : Int) := by
  unfold setRequestPtr
  split
  · next hc => exact ⟨hc.2.1, le_of_lt hc.2.2⟩
  · exact h

/-- C1: starting from any cursor offset inside `[0, REQUEST_BUFFER_SIZE]`,
every sequence of `setRequestPtr` calls keeps the cursor inside
`[0, REQUEST_BUFFER_SIZE]` (offsets from `buffer`, capacity 2048), and a
requested position outside those bounds is silently rejected: the cursor
is left unchanged. -/
theorem setRequestPtr_cursor_invariant (b : Bool) (l : List Int) (ptr pos : Int)
    (h : 0 ≤ ptr ∧ ptr ≤ (REQUEST_BUFFER_SIZE : Int)) :
    (0 ≤ l.foldl (setRequestPtr b) ptr ∧
      l.foldl (setRequestPtr b) ptr ≤ (REQUEST_BUFFER_SIZE : Int))
  ∧ ((pos < 0 ∨ (REQUEST_BUFFER_SIZE : Int) < pos) →
      setRequestPtr b ptr pos = ptr) := by
  constructor
  · induction l generalizing ptr with
    | nil => exact h
    | cons x xs ih => exact ih _ (setRequestPtr_step b ptr x h)
  · intro hout
    unfold setRequestPtr
    split
    · next hc =>
      rcases hout with h1 | h2
      · exact absurd hc.2.1 (not_le.mpr h1)
      · have : (REQUEST_BUFFER_SIZE : Int) < REQUEST_BUFFER_SIZE :=
          lt_trans h2 hc.2.2
        exact absurd this (lt_irrefl _)
    · rfl

/-- Witness for C1 at a concrete sequence containing in-range and
out-of-range positions. -/
theorem setRequestPtr_cursor_invariant_witness :
    (0 ≤ [(5 : Int), 3000, -2, 7].foldl (setRequestPtr true) 0 ∧
      [(5 : Int), 3000, -2, 7].foldl (setRequestPtr true) 0 ≤
        (REQUEST_BUFFER_SIZE : Int))
  ∧ (((3000 : Int) < 0 ∨ (REQUEST_BUFFER_SIZE : Int) < 3000) →
      setRequestPtr true 0 3000 = 0) :=
  setRequestPtr_cursor_invariant true [5, 3000, -2, 7] 0 3000 (by decide)

/-! ### C2: streaming continuation never rewinds; unit = 0 always rewinds -/

/-- C2: for a streaming field (`fiText` or `fiOutlines`),
`ThreadData::initRequest` leaves the cursor untouched when `unit > 0`
(already-delivered data stays in place) and rewinds it to the start of the
buffer when `unit = 0`. -/
theorem initRequest_streaming_rewind (ptr field unit : Int)
    (hf : field = fiText ∨ field = fiOutlines) :
    (0 < unit → (initRequest ptr field unit).1 = ptr)
  ∧ (unit = 0 → (initRequest ptr field unit).1 = 0) := by
  constructor
  · intro hu
    unfold initRequest
    simp only [hf, true_and, hu, if_pos]
    split <;> simp_all
  · intro hu
    subst hu
    unfold initRequest
    simp

/-- Witness for C2: full text field, a non-zero cursor survives a
continuation (`unit = 2`) and is rewound by a fresh request (`unit = 0`). -/
theorem initRequest_streaming_rewind_witness :
    ((0 : Int) < 2 → (initRequest 100 fiText 2).1 = 100)
  ∧ ((2 : Int) = 0 → (initRequest 100 fiText 2).1 = 0) :=
  initRequest_streaming_rewind 100 fiText 2 (Or.inl rfl)

/-! ### C3: status writes are guarded CAS transitions — corrected

The claim admits an unconditional overwrite only on the terminal shutdown
path (`abort`).  But `PDFExtractor::closeDoc` overwrites the status with
`closed` unconditionally and runs on the worker idle-timeout and
file-change paths, and `PDFExtractor::open` overwrites it with `active`
unconditionally when a new file is opened — neither is the shutdown
path. -/

/-- C3 counterexample: the status write of `PDFExtractor::closeDoc` is not
a guarded (compare-and-swap style) transition — no old→new pair reproduces
it — although `closeDoc` runs on non-teardown paths (worker idle timeout,
file change). -/
theorem closeDoc_status_write_not_guarded : ¬ isGuarded closeDocStatus := by
  decide

/-- C3 amended: every status write in the repository is a guarded
old→new transition — `stop`, `done`, the worker's completion and
cancellation-to-closed writes, the consumer-failure cancellation, and the
re-arming in `extract`/`compare` — except three unconditional overwrites:
`abort` (terminal shutdown, sets `cancelled`), `closeDoc` (sets `closed`;
also runs on idle-timeout and file-change paths), and `open` on a new
file (sets `active`). -/
theorem statusTransitions_guarded :
    isGuarded stopStatus ∧ isGuarded doneStatus
  ∧ isGuarded workerCompleteStatus ∧ isGuarded workerClosedStatus
  ∧ isGuarded extractArmStatus ∧ isGuarded consumerFailStatus
  ∧ (∀ s, closeDocStatus s = .closed)
  ∧ (∀ s, openNewFileStatus s = .active)
  ∧ (∀ s, abortStatus s = .cancelled)
  ∧ ¬ isGuarded openNewFileStatus ∧ ¬ isGuarded abortStatus := by
  decide

/-! ### C4: unit = -1 on a streaming field abandons without re-arming -/

/-- C4: for a streaming field, a request with `unit = -1` forces the
`stop()` cancellation (a guarded active→cancelled transition) and returns
`ft_fieldempty` immediately: `initRequest` is not called (the request keeps
its cursor and result tag), and `extract` then arms no new work and
returns the field-empty result. -/
theorem initData_abandon (status : requestStatus) (ptr rr field : Int)
    (hasDst startOk : Bool) (w : WaitOutcome) (collected : Int)
    (hf : field = fiText ∨ field = fiOutlines) :
    initData status ptr rr field (-1) =
      ⟨ft_fieldempty, stopStatus status, ptr, rr, false⟩
  ∧ stopStatus .active = .cancelled
  ∧ extractModel field (-1) hasDst status ptr rr startOk w collected =
      (ft_fieldempty, false) := by
  have hd : initData status ptr rr field (-1) =
      ⟨ft_fieldempty, stopStatus status, ptr, rr, false⟩ := by
    unfold initData
    simp [hf]
  refine ⟨hd, rfl, ?_⟩
  unfold extractModel
  simp [hd]

/-- Witness for C4: abandoning a full-text extraction on an active
request. -/
theorem initData_abandon_witness :
    initData .active 96 ft_fulltextw fiText (-1) =
      ⟨ft_fieldempty, stopStatus .active, 96, ft_fulltextw, false⟩
  ∧ stopStatus .active = .cancelled
  ∧ extractModel fiText (-1) true .active 96 ft_fulltextw true .signaled 0 =
      (ft_fieldempty, false) :=
  initData_abandon .active 96 ft_fulltextw fiText true true .signaled 0
    (Or.inl rfl)

/-! ### C7: consumer timeout — corrected

`PDFExtractor::waitForConsumer` does report `ft_timeout` when the bounded
wait expires, but `PDFExtractor::extract` never returns it to the caller:
the non-streaming path converts it to `ft_fieldempty`
(src/PDFExtractor.cc:1079-1082) and the streaming path with a destination
buffer converts it to `ft_fulltextw`, shipping whatever partial data
exists (src/PDFExtractor.cc:1028-1033).  `ContentGetValueW` returns
`extract`'s result unchanged (src/xPDFInfo.cc:298). -/

lemma initData_retval_cases (status : requestStatus) (ptr rr field unit : Int) :
    (initData status ptr rr field unit).retval = ft_fieldempty
  ∨ (initData status ptr rr field unit).retval = ft_setsuccess
  ∨ (initData status ptr rr field unit).retval = ft_timeout := by
  unfold initData initRequest
  dsimp only
  repeat' split
  all_goals simp

/-- C7 counterexample: a non-streaming request (field 0 = `fiTitle`) whose
consumer wait times out makes `extract` return `ft_fieldempty`, not
`ft_timeout`. -/
theorem extract_timeout_counterexample :
    (extractModel 0 0 true .closed 0 ft_fieldempty true .timedOut
        ft_stringw).1 = ft_fieldempty
  ∧ ft_fieldempty ≠ ft_timeout := by
  decide

/-- C7 amended: when the bounded consumer wait expires, the internal wait
step yields `ft_timeout`, and `extract` maps it before returning: a
non-streaming call returns `ft_fieldempty`, and a streaming call
(`unit = 0`) with a destination buffer returns `ft_fulltextw` carrying the
partial data; the caller can re-poll the same request. -/
theorem extract_timeout_mapped (f1 u1 : Int) (st1 : requestStatus)
    (p1 rr1 c1 : Int) (d1 ok1 : Bool) (f2 : Int) (st2 : requestStatus)
    (p2 rr2 c2 : Int) (ok2 : Bool)
    (hns : ¬ (f1 = fiText ∨ f1 = fiOutlines))
    (hid1 : (initData st1 p1 rr1 f1 u1).retval ≠ ft_fieldempty)
    (hok1 : ok1 = true)
    (hs : f2 = fiText ∨ f2 = fiOutlines)
    (hid2 : (initData st2 p2 rr2 f2 0).retval ≠ ft_fieldempty) :
    waitForConsumerRes .timedOut = ft_timeout
  ∧ (extractModel f1 u1 d1 st1 p1 rr1 ok1 .timedOut c1).1 = ft_fieldempty
  ∧ (extractModel f2 0 true st2 p2 rr2 ok2 .timedOut c2).1 = ft_fulltextw := by
  refine ⟨rfl, ?_, ?_⟩
  · subst hok1
    unfold extractModel
    simp [hid1, hns, waitForConsumerRes, ft_timeout, ft_setsuccess,
      ft_fieldempty]
    split <;> rfl
  · rcases initData_retval_cases st2 p2 rr2 f2 0 with h | h | h
    · exact absurd h hid2
    all_goals
      unfold extractModel
      cases ok2 <;>
        simp [hid2, hs, h, waitForConsumerRes, ft_timeout, ft_setsuccess,
          ft_fulltextw, ft_fieldempty]

/-- Witness for C7's amended statement: title field timing out yields
field-empty; full-text `unit = 0` timing out yields streamed text. -/
theorem extract_timeout_mapped_witness :
    waitForConsumerRes .timedOut = ft_timeout
  ∧ (extractModel 0 0 true .closed 0 ft_fieldempty true .timedOut
        ft_stringw).1 = ft_fieldempty
  ∧ (extractModel fiText 0 true .closed 0 ft_fieldempty true .timedOut
        0).1 = ft_fulltextw :=
  extract_timeout_mapped 0 0 .closed 0 ft_fieldempty ft_stringw true true
    fiText .closed 0 ft_fieldempty 0 true (by decide) (by decide) rfl
    (Or.inl rfl) (by decide)

/-! ### C9: removeDelimiters — corrected

The claim says exactly the characters in `delims` are removed.  But the
loop tests membership with `wcschr`, which also matches the terminating
NUL of `delims`, so an embedded NUL character is removed even when `0` is
not a listed delimiter.  With that one addition the claim holds, including
idempotence. -/

/-- C9 counterexample: on `['A', NUL, 'B']` with delimiter set `[' ']`
the code removes the NUL (length 2, text "AB"), while the claim as stated
predicts the NUL is kept (length 3). -/
theorem removeDelimiters_nul_counterexample :
    (removeDelimiters [65, 0, 66] 3 [32]).2 = 2
  ∧ (removeDelimiters [65, 0, 66] 3 [32]).1.take 2 = [65, 66]
  ∧ removeDelimitersClaimed [65, 0, 66] 3 [32] = [65, 0, 66]
  ∧ (removeDelimitersClaimed [65, 0, 66] 3 [32]).length = 3
  ∧ (2 : Nat) ≠ 3 := by
  decide

lemma removeDelimiters_snd (str : List Nat) (cch : Nat) (delims : List Nat) :
    (removeDelimiters str cch delims).2 = (keptChars str cch delims).length := by
  unfold removeDelimiters
  dsimp only
  split <;> rfl

lemma removeDelimiters_take (str : List Nat) (cch : Nat) (delims : List Nat) :
    (removeDelimiters str cch delims).1.take
      (removeDelimiters str cch delims).2 = keptChars str cch delims := by
  unfold removeDelimiters
  dsimp only
  split
  · next h =>
    have hsub : List.Sublist (keptChars str cch delims) (str.take cch) :=
      List.filter_sublist _
    have h1 : (str.take cch).length ≤ cch := by simp
    have h2 : (keptChars str cch delims).length = (str.take cch).length := by
      have := hsub.length_le
      omega
    have heq : keptChars str cch delims = str.take cch :=
      hsub.eq_of_length h2
    rw [h]
    exact heq.symm
  · exact List.take_left _ _

lemma keptChars_fix (str : List Nat) (cch : Nat) (delims : List Nat)
    (l : List Nat) (hl : l = keptChars str cch delims) :
    l.filter (fun c => ! wcschrHit delims c) = l := by
  rw [List.filter_eq_self]
  intro a ha
  rw [hl] at ha
  unfold keptChars at ha
  exact (List.mem_filter.mp ha).2

/-- C9 amended: `removeDelimiters` rewrites the first `cchStr` characters
to the subsequence of those characters that are neither in `delims` nor
NUL (which `wcschr` matches as the terminator of `delims`), preserving
their relative order, and returns the new length; applying it a second
time with the same delimiter set changes nothing. -/
theorem removeDelimiters_filter_idem (str : List Nat) (cch : Nat)
    (delims : List Nat) :
    (removeDelimiters str cch delims).1.take
      (removeDelimiters str cch delims).2 = keptChars str cch delims
  ∧ (removeDelimiters str cch delims).2 = (keptChars str cch delims).length
  ∧ removeDelimiters (removeDelimiters str cch delims).1
      (removeDelimiters str cch delims).2 delims =
      removeDelimiters str cch delims := by
  refine ⟨removeDelimiters_take str cch delims,
    removeDelimiters_snd str cch delims, ?_⟩
  set r := removeDelimiters str cch delims with hr
  have htake : r.1.take r.2 = keptChars str cch delims :=
    removeDelimiters_take str cch delims
  have hsnd : r.2 = (keptChars str cch delims).length :=
    removeDelimiters_snd str cch delims
  have hkept : keptChars r.1 r.2 delims = keptChars str cch delims := by
    unfold keptChars
    rw [htake]
    exact keptChars_fix str cch delims _ rfl
  unfold removeDelimiters
  dsimp only
  rw [hkept, if_pos hsnd.symm, ← hsnd]

/-! ### C8: Y2K century-truncation correction in date parsing -/

lemma dateToInt_length (s : List Nat) (n v : Nat)
    (h : dateToInt s n = some v) : n ≤ s.length := by
  unfold dateToInt at h
  dsimp only at h
  split at h
  · next hc =>
    have := hc.1
    simp [List.length_take] at this
    omega
  · exact absurd h (by simp)

lemma y2kStrip_length (s : List Nat) :
    s.length = (y2kStrip s).length ∨ s.length = (y2kStrip s).length + 2 := by
  unfold y2kStrip
  split
  · next h =>
    right
    have h2 : (s.take 2).length = 2 := by rw [h]; rfl
    simp [List.length_take] at h2
    simp [List.length_drop]
    omega
  · left
    rfl

/-- C8: in `PdfDateTimeToFileTime`, when the leading four digits parse to
a year in the implausible range 1909–1913 and the (`D:`-stripped) string
is longer than 14 characters, the year becomes `1900 + YYY` where `YYY`
are the three digits after the two-digit century prefix; when the year is
outside that range, the four-digit year is used as parsed. -/
theorem pdfParsedYear_y2k (s : List Nat) (y yyy : Nat)
    (hy : dateToInt (y2kStrip s) 4 = some y) :
    (1909 ≤ y → y ≤ 1913 → 14 < (y2kStrip s).length →
      dateToInt ((y2kStrip s).drop 2) 3 = some yyy →
      pdfParsedYear s = some (1900 + yyy))
  ∧ (¬ (1909 ≤ y ∧ y ≤ 1913) → pdfParsedYear s = some y) := by
  have h41 : 4 ≤ (y2kStrip s).length := dateToInt_length _ _ _ hy
  have h4s : 4 ≤ s.length := by
    rcases y2kStrip_length s with h | h <;> omega
  constructor
  · intro h1 h2 h3 hyyy
    unfold pdfParsedYear
    rw [if_pos h4s]
    dsimp only
    rw [if_pos h41, hy]
    dsimp only
    rw [if_pos ⟨h1, h2, h3⟩, hyyy]
    rw [Nat.add_comm]
  · intro hout
    unfold pdfParsedYear
    rw [if_pos h4s]
    dsimp only
    rw [if_pos h41, hy]
    dsimp only
    rw [if_neg (by tauto)]

/-- Witness for C8: the Distiller-bug string `191130401122334`
(`CCYYYMMDDHHmmSS` with `CC = 19`) parses to year 1911, which is
corrected to 1900 + 113 = 2013. -/
theorem pdfParsedYear_y2k_witness :
    ((1909 ≤ 1911 → 1911 ≤ 1913 →
      14 < (y2kStrip [49, 57, 49, 49, 51, 48, 52, 48, 49, 49, 50, 50, 51,
        51, 52]).length →
      dateToInt ((y2kStrip [49, 57, 49, 49, 51, 48, 52, 48, 49, 49, 50, 50,
        51, 51, 52]).drop 2) 3 = some 113 →
      pdfParsedYear [49, 57, 49, 49, 51, 48, 52, 48, 49, 49, 50, 50, 51,
        51, 52] = some (1900 + 113))
  ∧ (¬ (1909 ≤ 1911 ∧ 1911 ≤ 1913) →
      pdfParsedYear [49, 57, 49, 49, 51, 48, 52, 48, 49, 49, 50, 50, 51,
        51, 52] = some 1911)) :=
  pdfParsedYear_y2k [49, 57, 49, 49, 51, 48, 52, 48, 49, 49, 50, 50, 51,
    51, 52] 1911 113 (by decide)

/-! ### C5: both sides empty compares equal with zero bytes -/

/-- C5: a comparison round in which both buffer strings have length zero
declares the round equal and leaves zero bytes processed
(src/PDFExtractor.cc:1289-1294), and a comparison whose first round
reports `ft_fieldempty` on both sides (both extractions empty) ends with
the overall result `ft_compare_eq` and zero bytes processed
(src/PDFExtractor.cc:1319-1327). -/
theorem compare_both_empty (coll : List Nat → List Nat → Nat → Bool)
    (eqTxt0 : Bool) (bp0 : Nat) (rin : RoundIn) (rest : List RoundIn)
    (hok : rin.ok = true) (hready : rin.ready = true)
    (hr1 : rin.r1 = ft_fieldempty) (hr2 : rin.r2 = ft_fieldempty) :
    roundCore coll eqTxt0 bp0 [] [] = (ft_compare_eq, eqTxt0, 0, false)
  ∧ (compareFinal coll (rin :: rest)).result = ft_compare_eq
  ∧ (compareFinal coll (rin :: rest)).bytesProcessed = 0 := by
  refine ⟨rfl, ?_⟩
  obtain ⟨ok, ready, r1, r2, b1, b2, pf, ar, a1, a2⟩ := rin
  simp only at hok hready hr1 hr2
  subst hok hready hr1 hr2
  simp [compareFinal, compareLoop, compareRound, compareWaitForConsumers,
    compareInit, ft_fieldempty, ft_compare_eq, ft_setsuccess]

/-- Witness for C5: both result tags `ft_fieldempty`, both buffers
empty. -/
theorem compare_both_empty_witness :
    roundCore (fun a b n => decide (a.take n = b.take n)) false 0 [] [] =
      (ft_compare_eq, false, 0, false)
  ∧ (compareFinal (fun a b n => decide (a.take n = b.take n))
      [⟨true, true, ft_fieldempty, ft_fieldempty, [], [], false, false,
        true, true⟩]).result = ft_compare_eq
  ∧ (compareFinal (fun a b n => decide (a.take n = b.take n))
      [⟨true, true, ft_fieldempty, ft_fieldempty, [], [], false, false,
        true, true⟩]).bytesProcessed = 0 :=
  compare_both_empty (fun a b n => decide (a.take n = b.take n)) false 0
    ⟨true, true, ft_fieldempty, ft_fieldempty, [], [], false, false, true,
      true⟩ [] rfl rfl rfl rfl

/-! ### C6: downgrade to equal-as-text -/

lemma roundCore_result_cases (coll : List Nat → List Nat → Nat → Bool)
    (eqTxt0 : Bool) (bp0 : Nat) (buf1 buf2 : List Nat) :
    (roundCore coll eqTxt0 bp0 buf1 buf2).1 = ft_compare_not_eq
  ∨ (roundCore coll eqTxt0 bp0 buf1 buf2).1 = ft_compare_eq := by
  unfold roundCore
  dsimp only
  repeat' split
  all_goals simp [ft_compare_eq, ft_compare_not_eq]

lemma roundCore_eqTxt (coll : List Nat → List Nat → Nat → Bool)
    (eqTxt0 : Bool) (bp0 : Nat) (buf1 buf2 : List Nat) :
    (roundCore coll eqTxt0 bp0 buf1 buf2).2.1 =
      (eqTxt0 ||
        (decide (min buf1.length buf2.length ≠ 0)
          && decide (buf1.take (min buf1.length buf2.length) ≠
              buf2.take (min buf1.length buf2.length))
          && (if min (stripCmp buf1).length (stripCmp buf2).length ≠ 0 then
                coll (stripCmp buf1) (stripCmp buf2)
                  (min (stripCmp buf1).length (stripCmp buf2).length)
              else decide ((stripCmp buf1).length = (stripCmp buf2).length)))) := by
  unfold roundCore
  dsimp only
  by_cases hA : min buf1.length buf2.length ≠ 0
  · rw [if_pos hA]
    by_cases hB : buf1.take (min buf1.length buf2.length) =
        buf2.take (min buf1.length buf2.length)
    · rw [if_pos hB]
      simp [hB]
    · rw [if_neg hB]
      by_cases hX : min (stripCmp buf1).length (stripCmp buf2).length ≠ 0
      · simp only [if_pos hX]
        cases hc : coll (stripCmp buf1) (stripCmp buf2)
            (min (stripCmp buf1).length (stripCmp buf2).length) <;>
          simp [hc, hA, hB]
      · simp only [if_neg hX]
        by_cases hL : (stripCmp buf1).length = (stripCmp buf2).length
        · rw [if_pos hL]
          simp [hA, hB, hL]
        · rw [if_neg hL]
          simp [hA, hB, hL]
  · rw [if_neg hA]
    split <;> simp [hA]

lemma compareRound_eqTxt (coll : List Nat → List Nat → Nat → Bool)
    (st : CmpState) (rin : RoundIn) :
    (compareRound coll st rin).1.eqTxt = (st.eqTxt || textMatched coll rin) := by
  unfold compareRound textMatched
  dsimp only
  by_cases h0 : 0 < compareWaitForConsumers rin.ok rin.ready rin.r1 rin.r2
  · rw [if_pos h0]
    have h := roundCore_eqTxt coll st.eqTxt st.bytesProcessed rin.buf1 rin.buf2
    rw [decide_eq_true h0, Bool.true_and, ← h]
    repeat' split
    all_goals rfl
  · rw [if_neg h0]
    simp only [h0, decide_eq_false_iff_not, not_false_eq_true,
      Bool.false_and, Bool.or_false]
    split <;> simp [h0]

lemma compareRound_result_le (coll : List Nat → List Nat → Nat → Bool)
    (st : CmpState) (rin : RoundIn) (h : st.result ≤ 1) :
    (compareRound coll st rin).1.result ≤ 1 := by
  unfold compareRound
  dsimp only
  by_cases h0 : 0 < compareWaitForConsumers rin.ok rin.ready rin.r1 rin.r2
  · rw [if_pos h0]
    have hc := roundCore_result_cases coll st.eqTxt st.bytesProcessed
      rin.buf1 rin.buf2
    repeat' split
    all_goals
      simp only []
      first
        | (rcases hc with hc | hc <;>
            simp [hc, ft_compare_eq, ft_compare_not_eq, ft_compare_abort])
        | simp [ft_compare_abort]
  · rw [if_neg h0]
    split
    · simp [ft_compare_eq]
    · simp only []
      omega

lemma compareLoop_result_le (coll : List Nat → List Nat → Nat → Bool)
    (script : List RoundIn) (st : CmpState) (h : st.result ≤ 1) :
    (compareLoop coll st script).result ≤ 1 := by
  induction script generalizing st with
  | nil => exact h
  | cons r rest ih =>
    unfold compareLoop
    dsimp only
    split
    · exact ih _ (compareRound_result_le coll st r h)
    · exact compareRound_result_le coll st r h

lemma compareLoop_eqTxt_origin (coll : List Nat → List Nat → Nat → Bool)
    (script : List RoundIn) (st : CmpState)
    (h : (compareLoop coll st script).eqTxt = true) :
    st.eqTxt = true ∨ ∃ r ∈ script, textMatched coll r = true := by
  induction script generalizing st with
  | nil => exact Or.inl h
  | cons r rest ih =>
    unfold compareLoop at h
    dsimp only at h
    have hrnd := compareRound_eqTxt coll st r
    split at h
    · rcases ih _ h with h1 | ⟨x, hx, hxt⟩
      · rw [hrnd] at h1
        rcases Bool.or_eq_true_iff.mp h1 with h2 | h2
        · exact Or.inl h2
        · exact Or.inr ⟨r, List.mem_cons_self r rest, h2⟩
      · exact Or.inr ⟨x, List.mem_cons_of_mem r hx, hxt⟩
    · rw [hrnd] at h
      rcases Bool.or_eq_true_iff.mp h with h2 | h2
      · exact Or.inl h2
      · exact Or.inr ⟨r, List.mem_cons_self r rest, h2⟩

lemma compareLoop_eqTxt_binary (coll : List Nat → List Nat → Nat → Bool)
    (script : List RoundIn) (st : CmpState)
    (h : ∀ r ∈ script, textMatched coll r = false) :
    (compareLoop coll st script).eqTxt = st.eqTxt := by
  induction script generalizing st with
  | nil => rfl
  | cons r rest ih =>
    unfold compareLoop
    dsimp only
    have hrnd := compareRound_eqTxt coll st r
    rw [h r (List.mem_cons_self r rest), Bool.or_false] at hrnd
    split
    · rw [ih _ (fun x hx => h x (List.mem_cons_of_mem r hx)), hrnd]
    · exact hrnd

/-- C6: the final comparison result is downgraded from `ft_compare_eq` to
`ft_compare_eq_txt` exactly when the loop finished equal with the `eqTxt`
flag set; a set flag means some round matched only after delimiter
stripping and collation rather than byte-for-byte, and when every round of
the script matched byte-for-byte a loop result of `ft_compare_eq` is
returned as `ft_compare_eq` (no downgrade). -/
theorem compare_eq_txt_downgrade (coll : List Nat → List Nat → Nat → Bool)
    (script : List RoundIn) :
    ((compareFinal coll script).result = ft_compare_eq_txt ↔
      ((compareLoop coll compareInit script).result = ft_compare_eq ∧
        (compareLoop coll compareInit script).eqTxt = true))
  ∧ ((compareFinal coll script).result = ft_compare_eq_txt →
      ∃ r ∈ script, textMatched coll r = true)
  ∧ ((∀ r ∈ script, textMatched coll r = false) →
      (compareLoop coll compareInit script).result = ft_compare_eq →
      (compareFinal coll script).result = ft_compare_eq) := by
  have hle : (compareLoop coll compareInit script).result ≤ 1 :=
    compareLoop_result_le coll script compareInit (by norm_num [compareInit, ft_setsuccess])
  have hiff : (compareFinal coll script).result = ft_compare_eq_txt ↔
      ((compareLoop coll compareInit script).result = ft_compare_eq ∧
        (compareLoop coll compareInit script).eqTxt = true) := by
    unfold compareFinal
    dsimp only
    constructor
    · intro h
      split at h
      · next hc => exact hc
      · exfalso
        rw [ft_compare_eq_txt] at h
        omega
    · intro h
      rw [if_pos h]
  refine ⟨hiff, ?_, ?_⟩
  · intro h
    have h2 := (hiff.mp h).2
    rcases compareLoop_eqTxt_origin coll script compareInit h2 with h3 | h3
    · exact absurd h3 (by norm_num [compareInit])
    · exact h3
  · intro hbin hres
    unfold compareFinal
    dsimp only
    rw [if_neg]
    · exact hres
    · rw [compareLoop_eqTxt_binary coll script compareInit hbin]
      simp [compareInit]

/-- Witness for C6: a single round whose buffers differ byte-for-byte but
match after stripping (leading whitespace) is downgraded to
`ft_compare_eq_txt`. -/
theorem compare_eq_txt_downgrade_witness :
    (compareFinal (fun a b n => decide (a.take n = b.take n))
      [⟨true, true, ft_fulltextw, ft_fulltextw, [32, 65], [9, 65], false,
        false, false, false⟩]).result = ft_compare_eq_txt :=
  (compare_eq_txt_downgrade (fun a b n => decide (a.take n = b.take n))
    [⟨true, true, ft_fulltextw, ft_fulltextw, [32, 65], [9, 65], false,
      false, false, false⟩]).1.mpr ⟨by decide, by decide⟩

/-! ### C10: PdfTxtToUTF16 stays in budget, NUL-terminates, and converts
exactly the byte-swapped units with NUL/backspace/form-feed dropped -/

lemma take_twoAux (n : Nat) (a b : Nat) (l : List Nat) :
    List.take (n + 2) (a :: b :: l) = a :: b :: List.take n l := rfl

lemma keptUnits_cons2 (a b : Nat) (l : List Nat) :
    keptUnits (a :: b :: l) =
      if isDroppedW (swap16 a b) then keptUnits l
      else swap16 a b :: keptUnits l := by
  by_cases h : isDroppedW (swap16 a b) <;>
    simp [keptUnits, swapUnits, List.filter_cons, h]

lemma keptUnits_one (a : Nat) :
    keptUnits [a] =
      if isDroppedW (swap16 a 0) then [] else [swap16 a 0] := by
  by_cases h : isDroppedW (swap16 a 0) <;>
    simp [keptUnits, swapUnits, List.filter_cons, h]

lemma applyWrites_cons (p : Nat × Nat) (ws : List (Nat × Nat))
    (g : Nat → Nat) :
    applyWrites (p :: ws) g =
      applyWrites ws (fun j => if j = p.1 then p.2 else g j) := rfl

lemma applyWrites_append_single (ws : List (Nat × Nat)) (p : Nat × Nat)
    (g : Nat → Nat) (j : Nat) :
    applyWrites (ws ++ [p]) g j =
      if j = p.1 then p.2 else applyWrites ws g j := by
  unfold applyWrites
  rw [List.foldl_append]
  rfl

/-- Accepted-character count: the loop accepts exactly the non-dropped
byte-swapped units of the consumed prefix. -/
lemma txtGo_count : ∀ (src : List Nat) (cb : Int) (k : Nat),
    (txtGo src cb k).k = k + (keptUnits (src.take (txtGo src cb k).i)).length
  | hi :: lo :: rest, cb, k => by
    by_cases h3 : 3 < cb
    · by_cases hd : isDroppedW (swap16 hi lo)
      · have ih := txtGo_count rest cb k
        simp only [txtGo, if_pos h3, if_pos hd, take_twoAux,
          keptUnits_cons2]
        exact ih
      · have ih := txtGo_count rest (cb - 2) (k + 1)
        simp only [txtGo, if_pos h3, if_neg hd, take_twoAux,
          keptUnits_cons2]
        simp only [List.length_cons]
        omega
    · simp [txtGo, if_neg h3, keptUnits, swapUnits]
  | [hi], cb, k => by
    by_cases h3 : 3 < cb
    · by_cases hd : isDroppedW (swap16 hi 0)
      · simp [txtGo, if_pos h3, hd, keptUnits_one, List.take]
      · simp [txtGo, if_pos h3, hd, keptUnits_one, List.take]
    · simp [txtGo, if_neg h3, keptUnits, swapUnits]
  | [], cb, k => by
    simp [txtGo, keptUnits, swapUnits]

/-- Budget conservation: the loop never increases `k` and decreases the
remaining byte budget by exactly two bytes per accepted character. -/
lemma txtGo_cb : ∀ (src : List Nat) (cb : Int) (k : Nat),
    k ≤ (txtGo src cb k).k ∧
      (txtGo src cb k).cb =
        cb - 2 * ((((txtGo src cb k).k - k : Nat)) : Int)
  | hi :: lo :: rest, cb, k => by
    by_cases h3 : 3 < cb
    · by_cases hd : isDroppedW (swap16 hi lo)
      · have ih := txtGo_cb rest cb k
        simp only [txtGo, if_pos h3, if_pos hd]
        exact ih
      · have ih := txtGo_cb rest (cb - 2) (k + 1)
        simp only [txtGo, if_pos h3, if_neg hd]
        obtain ⟨ih1, ih2⟩ := ih
        constructor
        · omega
        · omega
    · simp [txtGo, if_neg h3]
  | [hi], cb, k => by
    by_cases h3 : 3 < cb
    · by_cases hd : isDroppedW (swap16 hi 0)
      · simp [txtGo, if_pos h3, hd]
      · simp only [txtGo, if_pos h3, if_neg hd]
        constructor
        · omega
        · omega
    · simp [txtGo, if_neg h3]
  | [], cb, k => by
    simp [txtGo]

/-- The remaining budget never drops below two bytes (the space the final
NUL store needs) when it starts with at least two. -/
lemma txtGo_cb_ge : ∀ (src : List Nat) (cb : Int) (k : Nat),
    2 ≤ cb → 2 ≤ (txtGo src cb k).cb
  | hi :: lo :: rest, cb, k => by
    intro hcb
    by_cases h3 : 3 < cb
    · by_cases hd : isDroppedW (swap16 hi lo)
      · simpa [txtGo, if_pos h3, hd] using txtGo_cb_ge rest cb k hcb
      · simpa [txtGo, if_pos h3, hd] using
          txtGo_cb_ge rest (cb - 2) (k + 1) (by omega)
    · simpa [txtGo, if_neg h3] using hcb
  | [hi], cb, k => by
    intro hcb
    by_cases h3 : 3 < cb
    · by_cases hd : isDroppedW (swap16 hi 0)
      · simpa [txtGo, if_pos h3, hd] using hcb
      · simp only [txtGo, if_pos h3, if_neg hd]
        omega
    · simpa [txtGo, if_neg h3] using hcb
  | [], cb, k => by
    intro hcb
    simpa [txtGo] using hcb

/-- Every 16-bit store of the loop — including the transient stores of
dropped characters — lands at index `≥ k` and strictly inside the byte
budget. -/
lemma txtGo_writes : ∀ (src : List Nat) (cb : Int) (k : Nat),
    ∀ p ∈ (txtGo src cb k).writes,
      k ≤ p.1 ∧ 2 * (p.1 : Int) + 4 ≤ 2 * k + cb
  | hi :: lo :: rest, cb, k => by
    intro p hp
    by_cases h3 : 3 < cb
    · by_cases hd : isDroppedW (swap16 hi lo)
      · simp only [txtGo, if_pos h3, if_pos hd, List.mem_cons] at hp
        rcases hp with hp | hp
        · subst hp
          constructor
          · exact le_rfl
          · simp only []
            omega
        · exact txtGo_writes rest cb k p hp
      · simp only [txtGo, if_pos h3, if_neg hd, List.mem_cons] at hp
        rcases hp with hp | hp
        · subst hp
          constructor
          · exact le_rfl
          · simp only []
            omega
        · have := txtGo_writes rest (cb - 2) (k + 1) p hp
          omega
    · simp [txtGo, if_neg h3] at hp
  | [hi], cb, k => by
    intro p hp
    by_cases h3 : 3 < cb
    · by_cases hd : isDroppedW (swap16 hi 0)
      · simp only [txtGo, if_pos h3, if_pos hd, List.mem_singleton] at hp
        subst hp
        refine ⟨le_rfl, by simp only []; omega⟩
      · simp only [txtGo, if_pos h3, if_neg hd, List.mem_singleton] at hp
        subst hp
        refine ⟨le_rfl, by simp only []; omega⟩
    · simp [txtGo, if_neg h3] at hp
  | [], cb, k => by
    intro p hp
    simp [txtGo] at hp

lemma applyWrites_singleton (p : Nat × Nat) (g : Nat → Nat) (j : Nat) :
    applyWrites [p] g j = if j = p.1 then p.2 else g j := rfl

/-- Final destination contents: below the final index `k'` the memory
holds exactly the kept (byte-swapped, filtered) units; above `k'` it is
untouched.  Index `k'` itself may hold the last rejected store and is
excluded (the top-level NUL store overwrites it). -/
lemma txtGo_content : ∀ (src : List Nat) (cb : Int) (k : Nat)
    (g : Nat → Nat) (j : Nat), j ≠ (txtGo src cb k).k →
    applyWrites (txtGo src cb k).writes g j =
      (if k ≤ j ∧ j < (txtGo src cb k).k then
        (keptUnits (src.take (txtGo src cb k).i)).getD (j - k) 0
      else g j)
  | hi :: lo :: rest, cb, k, g, j => by
    intro hj
    by_cases h3 : 3 < cb
    · by_cases hd : isDroppedW (swap16 hi lo)
      · have hk := (txtGo_cb rest cb k).1
        simp only [txtGo, if_pos h3, if_pos hd] at hj
        simp only [txtGo, if_pos h3, if_pos hd, take_twoAux,
          keptUnits_cons2]
        rw [applyWrites_cons]
        dsimp only
        rw [txtGo_content rest cb k _ j hj]
        by_cases hr : k ≤ j ∧ j < (txtGo rest cb k).k
        · rw [if_pos hr, if_pos hr]
        · rw [if_neg hr, if_neg hr, if_neg (by omega : ¬ j = k)]
      · have hk := (txtGo_cb rest (cb - 2) (k + 1)).1
        simp only [txtGo, if_pos h3, if_neg hd] at hj
        simp only [txtGo, if_pos h3, if_neg hd, take_twoAux,
          keptUnits_cons2]
        rw [applyWrites_cons]
        dsimp only
        rw [txtGo_content rest (cb - 2) (k + 1) _ j hj]
        by_cases hjk : j = k
        · subst hjk
          rw [if_neg (by omega), if_pos rfl, if_pos ⟨le_rfl, by omega⟩]
          simp
        · by_cases hr : k + 1 ≤ j ∧ j < (txtGo rest (cb - 2) (k + 1)).k
          · rw [if_pos hr, if_pos (by omega : k ≤ j ∧ j <
              (txtGo rest (cb - 2) (k + 1)).k)]
            rw [show j - k = (j - (k + 1)) + 1 by omega]
            simp
          · rw [if_neg hr, if_neg (by omega : ¬ (k ≤ j ∧ j <
              (txtGo rest (cb - 2) (k + 1)).k)), if_neg hjk]
    · simp only [txtGo, if_neg h3] at hj
      simp only [txtGo, if_neg h3]
      unfold applyWrites
      rw [List.foldl_nil, if_neg (by omega : ¬ (k ≤ j ∧ j < k))]
  | [hi], cb, k, g, j => by
    intro hj
    by_cases h3 : 3 < cb
    · by_cases hd : isDroppedW (swap16 hi 0)
      · simp only [txtGo, if_pos h3, if_pos hd] at hj
        simp only [txtGo, if_pos h3, if_pos hd]
        rw [applyWrites_singleton]
        dsimp only
        rw [if_neg hj, if_neg (by omega : ¬ (k ≤ j ∧ j < k))]
      · simp only [txtGo, if_pos h3, if_neg hd] at hj
        simp only [txtGo, if_pos h3, if_neg hd]
        rw [applyWrites_singleton]
        dsimp only
        by_cases hjk : j = k
        · subst hjk
          rw [if_pos rfl, if_pos ⟨le_rfl, by omega⟩]
          have htk : List.take 2 [hi] = [hi] := rfl
          rw [htk, keptUnits_one, if_neg hd]
          simp
        · rw [if_neg hjk, if_neg (by omega : ¬ (k ≤ j ∧ j < k + 1))]
    · simp only [txtGo, if_neg h3] at hj
      simp only [txtGo, if_neg h3]
      unfold applyWrites
      rw [List.foldl_nil, if_neg (by omega : ¬ (k ≤ j ∧ j < k))]
  | [], cb, k, g, j => by
    intro hj
    simp only [txtGo] at hj
    simp only [txtGo]
    unfold applyWrites
    rw [List.foldl_nil, if_neg (by omega : ¬ (k ≤ j ∧ j < k))]

/-- C10: with a destination budget of at least one wide character (two
bytes) and a whole number of 16-bit input units, `PdfTxtToUTF16`
(i) performs every 16-bit store — transient ones included — strictly
inside the byte budget, (ii) ends the string with a NUL store at the
final index, (iii) leaves below that index exactly the byte-swapped units
of the consumed input with NUL, backspace and form-feed dropped, and
leaves everything above untouched, and (iv) the final index is the count
of those kept units. -/
theorem pdfTxtToUTF16_spec (src : List Nat) (cbDst : Int)
    (hsrc : 2 ∣ src.length) (hcb : 2 ≤ cbDst) :
    (∀ p ∈ (pdfTxtToUTF16 src cbDst).writes,
        2 * (p.1 : Int) + 2 ≤ cbDst)
  ∧ (∀ g : Nat → Nat,
      applyWrites (pdfTxtToUTF16 src cbDst).writes g
        (pdfTxtToUTF16 src cbDst).k = 0)
  ∧ (∀ g : Nat → Nat, ∀ j : Nat,
      j ≠ (pdfTxtToUTF16 src cbDst).k →
      applyWrites (pdfTxtToUTF16 src cbDst).writes g j =
        (if j < (pdfTxtToUTF16 src cbDst).k then
          (keptUnits (src.take (pdfTxtToUTF16 src cbDst).i)).getD j 0
        else g j))
  ∧ (pdfTxtToUTF16 src cbDst).k =
      (keptUnits (src.take (pdfTxtToUTF16 src cbDst).i)).length := by
  have hkeq : (pdfTxtToUTF16 src cbDst).k = (txtGo src cbDst 0).k := rfl
  have hieq : (pdfTxtToUTF16 src cbDst).i = (txtGo src cbDst 0).i := rfl
  have hweq : (pdfTxtToUTF16 src cbDst).writes =
      (txtGo src cbDst 0).writes ++ [((txtGo src cbDst 0).k, 0)] := rfl
  have hcb2 := (txtGo_cb src cbDst 0).2
  have hge := txtGo_cb_ge src cbDst 0 hcb
  refine ⟨?_, ?_, ?_, ?_⟩
  · intro p hp
    rw [hweq] at hp
    rcases List.mem_append.mp hp with hp | hp
    · have := txtGo_writes src cbDst 0 p hp
      omega
    · rw [List.mem_singleton] at hp
      subst hp
      dsimp only
      omega
  · intro g
    rw [hweq, applyWrites_append_single, if_pos hkeq]
  · intro g j hj
    rw [hkeq] at hj
    rw [hweq, applyWrites_append_single, if_neg (hkeq ▸ hj),
      txtGo_content src cbDst 0 g j hj, hkeq, hieq]
    by_cases hr : j < (txtGo src cbDst 0).k
    · rw [if_pos ⟨Nat.zero_le j, hr⟩, if_pos hr, Nat.sub_zero]
    · rw [if_neg (by omega : ¬ (0 ≤ j ∧ j < (txtGo src cbDst 0).k)),
        if_neg hr]
  · rw [hkeq, hieq]
    simpa using txtGo_count src cbDst 0

/-- Witness for C10 on the UTF-16BE bytes of "A︎", a backspace, and
U+0410: the backspace unit is dropped, two characters are kept, and the
budget of 8 bytes is respected. -/
theorem pdfTxtToUTF16_spec_witness :
    (pdfTxtToUTF16 [0, 65, 0, 8, 4, 16] 8).k =
      (keptUnits ([0, 65, 0, 8, 4, 16].take
        (pdfTxtToUTF16 [0, 65, 0, 8, 4, 16] 8).i)).length :=
  (pdfTxtToUTF16_spec [0, 65, 0, 8, 4, 16] 8 (by decide) (by decide)).2.2.2

end XPDFSearch
